import Mathlib

set_option maxHeartbeats 1000000

/-!
Shallow embedding of ubuntu-make's CLI front end (umake/ui/cli/__init__.py):
the version comparator `is_first_version_higher`, the argument resolver
`mangle_args_for_default_framework`, the `--update` pipeline of `main`, and
the `CliUI._display` dispatch loop.

String primitives used by the source (`str.split`, `int`, `str.startswith`,
substring tests) are embedded as structural recursions over the character
list of the string, so every definition evaluates on concrete inputs.
-/

namespace UmakeCli

/-! ## Version comparator (`is_first_version_higher`) -/

/-- `version.split('.')` on the character list: splitting on `'.'` always
yields at least one (possibly empty) segment, exactly like Python's
`str.split` with an explicit separator. -/
def split_dots : List Char → List (List Char)
  | [] => [[]]
  | c :: cs =>
    if c = '.' then [] :: split_dots cs
    else
      match split_dots cs with
      | [] => [[c]]
      | seg :: segs => (c :: seg) :: segs

/-- Accumulate a run of decimal digits; `none` as soon as a non-digit occurs. -/
def parse_digits_aux : List Char → Nat → Option Nat
  | [], acc => some acc
  | c :: cs, acc =>
    if c.isDigit then parse_digits_aux cs (acc * 10 + (c.toNat - 48)) else none

/-- Python's `int(segment)` on the forms a version segment can take: an
optional sign followed by a non-empty digit run; `none` models the
`ValueError` raised otherwise. -/
def parse_int_seg : List Char → Option Int
  | [] => none
  | '-' :: rest =>
    if rest.isEmpty then none
    else (parse_digits_aux rest 0).map (fun n => -(n : Int))
  | '+' :: rest =>
    if rest.isEmpty then none
    else (parse_digits_aux rest 0).map (fun n => (n : Int))
  | cs => (parse_digits_aux cs 0).map (fun n => (n : Int))

/-- `list(map(int, version.split('.')))` from the source; `none` models the
uncaught `ValueError` when a segment is not numeric. -/
def parse_version_parts (s : String) : Option (List Int) :=
  (split_dots s.data).mapM parse_int_seg

/-- The comparison loop of `is_first_version_higher`: `zip` truncates to the
common length, the first differing segment pair decides, and once the common
prefix is exhausted the original lengths are compared with
`len(v1_parts) > len(v2_parts)`. -/
def version_parts_higher : List Int → List Int → Bool
  | v1 :: t1, v2 :: t2 =>
    if v1 > v2 then true else if v1 < v2 then false else version_parts_higher t1 t2
  | t1, t2 => t1.length > t2.length

/-- `is_first_version_higher(version1, version2)` from umake/ui/cli/__init__.py.
An absent (`None`) version is the outer `none`; a `none` result models the
uncaught `ValueError` on a malformed segment.  Note the source tests
`version2 is None` before `version1 is None`. -/
def is_first_version_higher (version1 version2 : Option String) : Option Bool :=
  match version2 with
  | none => some true
  | some v2 =>
    match version1 with
    | none => some false
    | some v1 =>
      match parse_version_parts v1, parse_version_parts v2 with
      | some p1, some p2 => some (version_parts_higher p1 p2)
      | _, _ => none

/-- Modelled from the spec: the first position at which the two segment lists
differ, scanning the common length only. -/
def first_diff : List Int → List Int → Option (Int × Int)
  | x :: xs, y :: ys => if x = y then first_diff xs ys else some (x, y)
  | _, _ => none

/-- Modelled from the spec: "Compare segment-by-segment in order; the first
differing pair decides.  If one version's segment sequence is a strict prefix
of the other's (all compared segments equal) the longer sequence is considered
higher." -/
def spec_segments_higher (p1 p2 : List Int) : Bool :=
  match first_diff p1 p2 with
  | some (x, y) => x > y
  | none => p1.length > p2.length

/-- The source's zip-loop comparison agrees with the spec's description of
segment-by-segment comparison. -/
theorem version_parts_higher_eq_spec (p1 p2 : List Int) :
    version_parts_higher p1 p2 = spec_segments_higher p1 p2 := by
  induction p1 generalizing p2 with
  | nil => cases p2 <;> rfl
  | cons x xs ih =>
    cases p2 with
    | nil => rfl
    | cons y ys =>
      by_cases hxy : x = y
      · subst hxy
        have hL : version_parts_higher (x :: xs) (x :: ys) = version_parts_higher xs ys := by
          simp [version_parts_higher]
        have hfd : first_diff (x :: xs) (x :: ys) = first_diff xs ys := by
          simp [first_diff]
        rw [hL, ih ys]
        unfold spec_segments_higher
        rw [hfd]
        cases hf : first_diff xs ys with
        | some p =>
          obtain ⟨a, b⟩ := p
          rfl
        | none =>
          simp only [List.length_cons]
          exact decide_eq_decide.mpr (by omega)
      · have hfd : first_diff (x :: xs) (y :: ys) = some (x, y) := by
          simp [first_diff, hxy]
        unfold version_parts_higher spec_segments_higher
        rw [hfd]
        rcases lt_trichotomy x y with hlt | heq | hgt
        · rw [if_neg (not_lt_of_lt hlt), if_pos hlt]
          exact (decide_eq_false (not_lt_of_lt hlt)).symm
        · exact absurd heq hxy
        · rw [if_pos hgt]
          exact (decide_eq_true hgt).symm

/-- Claim C1 (counterexample): the claim states `compare(None, None)` is
false, but the source returns `True` there because the `version2 is None`
test comes first. -/
theorem C1_counterexample :
    is_first_version_higher none none = some true ∧
      is_first_version_higher none none ≠ some false := by
  constructor
  · rfl
  · intro h
    simp [is_first_version_higher] at h

/-- Claim C1 (amended): `compare(a, None)` is true for every `a` (including
`None`); `compare(None, b)` is false for every present `b`; and
`compare(None, None)` is true, since the `version2 is None` check precedes
the `version1 is None` check. -/
theorem C1_absent_version_rules (a : Option String) (s : String) :
    is_first_version_higher a none = some true
      ∧ is_first_version_higher none (some s) = some false
      ∧ is_first_version_higher none none = some true := by
  refine ⟨?_, rfl, rfl⟩
  cases a <;> rfl

/-- Claim C5: for version strings whose segments parse as non-negative
integers, the comparator compares the dot-split segments in order, the first
differing pair decides, and a strict prefix loses to the longer sequence; in
particular `compare("2.1.0","2.1")` is true and `compare("1.9","1.10")` is
false. -/
theorem C5_segmentwise_comparison (a b : String) (p1 p2 : List Int)
    (ha : parse_version_parts a = some p1) (hb : parse_version_parts b = some p2)
    (ha0 : ∀ x ∈ p1, 0 ≤ x) (hb0 : ∀ x ∈ p2, 0 ≤ x) :
    is_first_version_higher (some a) (some b) = some (spec_segments_higher p1 p2)
      ∧ is_first_version_higher (some "2.1.0") (some "2.1") = some true
      ∧ is_first_version_higher (some "1.9") (some "1.10") = some false := by
  refine ⟨?_, by decide, by decide⟩
  simp only [is_first_version_higher, ha, hb, version_parts_higher_eq_spec]

/-- Claim C5 witness: the general theorem instantiated at "2.1.0" and "2.1". -/
theorem C5_witness :
    is_first_version_higher (some "2.1.0") (some "2.1")
      = some (spec_segments_higher [2, 1, 0] [2, 1]) :=
  (C5_segmentwise_comparison "2.1.0" "2.1" [2, 1, 0] [2, 1]
    (by decide) (by decide) (by decide) (by decide)).1

/-! ## Argument resolver (`mangle_args_for_default_framework`) -/

/-- One entry of `BaseCategory.categories`: its dict key (`name`), the dict
keys of its `frameworks`, and the `prog_name` of its `default_framework` if
any. -/
structure Category where
  name : String
  frameworks : List String
  default_framework : Option String
deriving DecidableEq

/-- The read-only `BaseCategory.categories` registry. -/
abbrev Registry := List Category

/-- `arg in BaseCategory.categories.keys()` / `BaseCategory.categories[arg]`:
dictionary lookup by category name. -/
def findCategory (reg : Registry) (name : String) : Option Category :=
  reg.find? (fun c => c.name == name)

/-- The local variables of `mangle_args_for_default_framework`'s scan.  The
Python code stores the category's *name* and re-indexes the immutable
registry dict; we carry the found entry itself, which is the same data. -/
structure MangleState where
  result_args : List String
  skip_all : Bool
  pending_args : List String
  category : Option Category
  framework_completed : Bool
  args_to_append : List String
deriving DecidableEq

def initMangleState : MangleState := ⟨[], false, [], none, false, []⟩

/-- `arg in ("--remove", "-r")`. -/
def is_remove_flag (arg : String) : Bool := arg == "--remove" || arg == "-r"

/-- Python truthiness of the `category_name` variable (`not category_name` is
true both when it is still `None` and when the matched name is empty). -/
def category_truthy : Option Category → Bool
  | none => false
  | some cat => !(cat.name == "")

/-- `arg.startswith('-')`. -/
def starts_with_dash (s : String) : Bool :=
  match s.data with
  | [] => false
  | c :: _ => c == '-'

/-- `os.path.sep in arg` (the path separator is `'/'`). -/
def contains_path_sep (s : String) : Bool := s.data.contains '/'

/-- One iteration of the `for arg in args` loop of
`mangle_args_for_default_framework`. -/
def mangleStep (reg : Registry) (s : MangleState) (arg : String) : MangleState :=
  if category_truthy s.category = false ∧ is_remove_flag arg = true then
    { s with args_to_append := s.args_to_append ++ [arg] }
  else if starts_with_dash arg = false ∧ s.skip_all = false then
    if category_truthy s.category = false then
      match findCategory reg arg with
      | some cat =>
        { s with category := some cat,
                 result_args := s.result_args ++ s.pending_args ++ [arg],
                 pending_args := [] }
      | none => { s with skip_all := true, pending_args := s.pending_args ++ [arg] }
    else if s.framework_completed = false then
      match s.category with
      | some cat =>
        if arg ∈ cat.frameworks then
          { s with framework_completed := true, result_args := s.result_args ++ [arg] }
        else
          match cat.default_framework with
          | some d =>
            if contains_path_sep arg = true then
              { s with framework_completed := true,
                       result_args := s.result_args ++ [d],
                       pending_args := s.pending_args ++ [arg] }
            else
              { s with framework_completed := true,
                       pending_args := s.pending_args ++ [arg] }
          | none =>
            { s with framework_completed := true, skip_all := true,
                     pending_args := s.pending_args ++ [arg] }
      | none => { s with pending_args := s.pending_args ++ [arg] }
    else { s with pending_args := s.pending_args ++ [arg] }
  else { s with pending_args := s.pending_args ++ [arg] }

/-- The state after the whole scan. -/
def mangleScan (reg : Registry) (args : List String) : MangleState :=
  args.foldl (mangleStep reg) initMangleState

/-- The code after the loop: append the default framework when a category was
named but no framework token was ever seen, then emit
`result_args + pending_args + args_to_append`. -/
def mangleFinish (s : MangleState) : List String :=
  (if category_truthy s.category = true ∧ s.framework_completed = false then
    match s.category with
    | some cat =>
      match cat.default_framework with
      | some d => s.result_args ++ [d]
      | none => s.result_args
    | none => s.result_args
  else s.result_args) ++ s.pending_args ++ s.args_to_append

/-- The multiset of tokens currently held across the three buffers of the
scan state. -/
def mangleParts (s : MangleState) : Multiset String :=
  (s.result_args : Multiset String) + (s.pending_args : Multiset String)
    + (s.args_to_append : Multiset String)

/-- `mangle_args_for_default_framework(args)` with the registry explicit. -/
def mangle_args_for_default_framework (reg : Registry) (args : List String) : List String :=
  mangleFinish (mangleScan reg args)

/-- The argument-vector handling of `main`:
`if "--help" not in arg_to_parse: arg_to_parse = mangle_args_for_default_framework(...)`. -/
def arg_to_parse (reg : Registry) (argv : List String) : List String :=
  if "--help" ∈ argv then argv else mangle_args_for_default_framework reg argv

/-- A one-category registry used for concrete inputs: category `cat` with
known framework `fw` and default framework `dflt`. -/
def cat0 : Category := ⟨"cat", ["fw"], some "dflt"⟩

def reg0 : Registry := [cat0]

example : mangle_args_for_default_framework reg0 ["cat"] = ["cat", "dflt"] := by decide
example : mangle_args_for_default_framework reg0 ["cat", "fw"] = ["cat", "fw"] := by decide
example : mangle_args_for_default_framework reg0 ["cat", "/some/path"]
    = ["cat", "dflt", "/some/path"] := by decide
example : mangle_args_for_default_framework reg0 ["cat", "other"] = ["cat", "other"] := by decide
example : mangle_args_for_default_framework reg0 ["unknowntoken", "x"]
    = ["unknowntoken", "x"] := by decide
example : mangle_args_for_default_framework reg0 ["-r", "cat", "fw"]
    = ["cat", "fw", "-r"] := by decide
example : mangle_args_for_default_framework reg0 ["cat", "-r", "fw", "x"]
    = ["cat", "fw", "-r", "x"] := by decide
example : mangle_args_for_default_framework reg0 ["cat", "-x"]
    = ["cat", "dflt", "-x"] := by decide
example : arg_to_parse reg0 ["cat", "-h"] = ["cat", "dflt", "-h"] := by decide
example : arg_to_parse reg0 ["cat", "--help"] = ["cat", "--help"] := by decide

/-! ## Update pipeline (the `args.update` branch of `main`) -/

/-- One element of `installed_frameworks`, enriched with the data `main` reads
for it: `supports_update`, `get_current_user_version(install_path)` and
`get_latest_version()` (the latter is available once the download event has
fired; the fetch-and-wait synchronization itself carries no data beyond it). -/
structure InstalledFramework where
  framework_name : String
  category_name : String
  install_path : String
  supports_update : Bool
  user_version : Option String
  latest_version : Option String
deriving DecidableEq

/-- One element of `outdated_frameworks` (the dict built in the loop). -/
structure OutdatedEntry where
  framework_name : String
  category_name : String
  user_version : Option String
  latest_version : Option String
  is_outdated : Bool
deriving DecidableEq

/-- Code-point lexicographic order on strings, the order Python's `sorted`
uses for string keys. -/
def char_list_le : List Char → List Char → Bool
  | [], _ => true
  | _ :: _, [] => false
  | a :: as, b :: bs => if a < b then true else if b < a then false else char_list_le as bs

/-- Stable insertion keeping earlier elements first among equal keys, so that
`sort_by_name` models Python's stable `sorted(..., key=lambda x: x['framework_name'])`. -/
def insert_by_name (f : InstalledFramework) :
    List InstalledFramework → List InstalledFramework
  | [] => [f]
  | g :: gs =>
    if char_list_le f.framework_name.data g.framework_name.data then f :: g :: gs
    else g :: insert_by_name f gs

def sort_by_name (l : List InstalledFramework) : List InstalledFramework :=
  l.foldr insert_by_name []

/-- `is_first_version_higher(latest_version, user_version) if (latest_version
is not None and user_version is not None) else False`. -/
def classify_outdated (latest_version user_version : Option String) : Option Bool :=
  if latest_version.isSome ∧ user_version.isSome then
    is_first_version_higher latest_version user_version
  else some false

/-- The `for installed_framework in installed_frameworks` loop collecting
`outdated_frameworks`: skip the `java` category and `firefox-dev`, skip
frameworks without update support, classify the rest.  `none` models the
uncaught `ValueError` a malformed version raises (it aborts the command). -/
def scan_outdated : List InstalledFramework → Option (List OutdatedEntry)
  | [] => some []
  | f :: rest =>
    if f.category_name = "java" ∨ f.framework_name = "firefox-dev" then
      scan_outdated rest
    else if f.supports_update = true then
      match classify_outdated f.latest_version f.user_version with
      | none => none
      | some outdated =>
        if outdated then
          (scan_outdated rest).map (fun l =>
            ⟨f.framework_name, f.category_name, f.user_version, f.latest_version, true⟩ :: l)
        else scan_outdated rest
    else scan_outdated rest

/-- The `for outdated_framework in outdated_frameworks` loop: its body parses
`[category_name, framework_name]`, runs the command for it and immediately
executes `return`, so at most the first element is ever processed. -/
def invoke_loop : List OutdatedEntry → List (String × String)
  | [] => []
  | e :: _ => [(e.category_name, e.framework_name)]

/-- What the `--update` branch observably does: whether it printed
"All packages are up-to-date.", the report handed to
`pretty_print_versions`, and the `(category, framework)` command
re-invocations it performs. -/
structure UpdateResult where
  up_to_date : Bool
  report : List OutdatedEntry
  invocations : List (String × String)
deriving DecidableEq

/-- The `args.update` branch of `main`, starting from the installed
frameworks (already restricted to `is_installed`, as the list comprehension
does); `none` models the uncaught `ValueError` on a malformed version. -/
def update_pipeline (installed : List InstalledFramework) : Option UpdateResult :=
  match scan_outdated (sort_by_name installed) with
  | none => none
  | some outdated_frameworks =>
    if outdated_frameworks.length = 0 then some ⟨true, [], []⟩
    else some ⟨false, outdated_frameworks, invoke_loop outdated_frameworks⟩

/-- A concrete installed component: `idea` from category `ide`, user version
1.0, latest version 2.0. -/
def installed1 : List InstalledFramework :=
  [⟨"idea", "ide", "/home/u/.local/share/umake/ide/idea", true, some "1.0", some "2.0"⟩]

def entry1 : OutdatedEntry := ⟨"idea", "ide", some "1.0", some "2.0", true⟩

def result1 : UpdateResult := ⟨false, [entry1], [("ide", "idea")]⟩

example : update_pipeline installed1 = some result1 := by decide
example : update_pipeline [] = some ⟨true, [], []⟩ := by decide

/-! ## CLI UI dispatch (`CliUI._display`) -/

/-- The closed set of interaction kinds the dispatch recognizes, plus
`other`, standing for an object of any type outside that set (the final
`else` of the `isinstance` chain).  The interaction classes live outside
this file's source fragment; their payloads are modelled from the spec:
a text prompt carries a default the user can edit, choice-like requests
carry a validation that may reject the answer (`InputError`), a message
carries its text, a progress request knows whether another pulse is due. -/
inductive ContentType where
  | inputText (content default_input : String)
  | licenseAgreement (content input_prompt : String) (valid : String → Bool)
  | textWithChoices (prompt : String) (valid : String → Bool)
  | displayMessage (text : String)
  | unknownProgress (has_next_pulse : Bool)
  | other (descr : String)

/-- The observable way one `_display` call ends. -/
inductive DisplayOutcome where
  | resolvedText (answer : String)
  | resolvedChoice (answer : String)
  | displayed (text : String)
  | progressPulse (rescheduled : Bool)
  | quit (status_code : Nat)
deriving DecidableEq

/-- `logger.error("Unexcepted content type to display to CLI UI: {}".format(...))`
(typo as in the source). -/
def unknown_content_error (descr : String) : String :=
  "Unexcepted content type to display to CLI UI: " ++ descr

/-- `CliUI._display`: the `while True` retry loop around the `isinstance`
dispatch.  `stdin` supplies the lines the blocking `input()`/`rlinput()`
calls read; an `InputError` from a choice validation is logged and the same
request is redisplayed.  The result pairs the logged error messages with the
outcome; `none` means the fuel ran out while the loop was still retrying. -/
def display_loop (fuel : Nat) (stdin : List String) (contentType : ContentType) :
    List String × Option DisplayOutcome :=
  match fuel with
  | 0 => ([], none)
  | fuel + 1 =>
    match contentType with
    | .inputText _content default_input =>
      ([], some (.resolvedText (stdin.headD default_input)))
    | .licenseAgreement content input_prompt valid =>
      let answer := stdin.headD ""
      if valid answer then ([], some (.resolvedChoice answer))
      else
        let next := display_loop fuel (stdin.drop 1) (.licenseAgreement content input_prompt valid)
        (("invalid answer: " ++ answer) :: next.1, next.2)
    | .textWithChoices prompt valid =>
      let answer := stdin.headD ""
      if valid answer then ([], some (.resolvedChoice answer))
      else
        let next := display_loop fuel (stdin.drop 1) (.textWithChoices prompt valid)
        (("invalid answer: " ++ answer) :: next.1, next.2)
    | .displayMessage text => ([], some (.displayed text))
    | .unknownProgress has_next_pulse =>
      ([], some (.progressPulse has_next_pulse))
    | .other descr => ([unknown_content_error descr], some (.quit 1))

/-! ## Branch-evaluation lemmas for `mangleStep` -/

theorem remove_flag_starts_with_dash (arg : String) (h : is_remove_flag arg = true) :
    starts_with_dash arg = true := by
  have h' : arg = "--remove" ∨ arg = "-r" := by simpa [is_remove_flag] using h
  rcases h' with h' | h' <;> subst h' <;> decide

theorem not_remove_of_no_dash (arg : String) (h : starts_with_dash arg = false) :
    is_remove_flag arg = false := by
  cases hr : is_remove_flag arg with
  | false => rfl
  | true => rw [remove_flag_starts_with_dash arg hr] at h; exact absurd h (by simp)

theorem mangleStep_defer (reg : Registry) (s : MangleState) (arg : String)
    (h1 : category_truthy s.category = false) (h2 : is_remove_flag arg = true) :
    mangleStep reg s arg = { s with args_to_append := s.args_to_append ++ [arg] } := by
  unfold mangleStep
  rw [if_pos ⟨h1, h2⟩]

theorem mangleStep_passthrough (reg : Registry) (s : MangleState) (arg : String)
    (hA : ¬(category_truthy s.category = false ∧ is_remove_flag arg = true))
    (hB : ¬(starts_with_dash arg = false ∧ s.skip_all = false)) :
    mangleStep reg s arg = { s with pending_args := s.pending_args ++ [arg] } := by
  unfold mangleStep
  rw [if_neg hA, if_neg hB]

theorem mangleStep_pending_nonremove_option (reg : Registry) (s : MangleState) (arg : String)
    (h1 : starts_with_dash arg = true) (h2 : is_remove_flag arg = false) :
    mangleStep reg s arg = { s with pending_args := s.pending_args ++ [arg] } :=
  mangleStep_passthrough reg s arg (by simp [h2]) (by simp [h1])

theorem mangleStep_pending_truthy_option (reg : Registry) (s : MangleState) (arg : String)
    (h1 : category_truthy s.category = true) (h2 : starts_with_dash arg = true) :
    mangleStep reg s arg = { s with pending_args := s.pending_args ++ [arg] } :=
  mangleStep_passthrough reg s arg (by simp [h1]) (by simp [h2])

theorem mangleStep_skip (reg : Registry) (s : MangleState) (arg : String)
    (h2 : starts_with_dash arg = false) (h3 : s.skip_all = true) :
    mangleStep reg s arg = { s with pending_args := s.pending_args ++ [arg] } :=
  mangleStep_passthrough reg s arg (by simp [not_remove_of_no_dash arg h2]) (by simp [h3])

theorem mangleStep_commit (reg : Registry) (s : MangleState) (arg : String) (cat : Category)
    (h1 : category_truthy s.category = false) (h2 : starts_with_dash arg = false)
    (h3 : s.skip_all = false) (h4 : findCategory reg arg = some cat) :
    mangleStep reg s arg
      = { s with category := some cat,
                 result_args := s.result_args ++ s.pending_args ++ [arg],
                 pending_args := [] } := by
  unfold mangleStep
  rw [if_neg (by simp [not_remove_of_no_dash arg h2]), if_pos ⟨h2, h3⟩, if_pos h1, h4]

theorem mangleStep_unknown (reg : Registry) (s : MangleState) (arg : String)
    (h1 : category_truthy s.category = false) (h2 : starts_with_dash arg = false)
    (h3 : s.skip_all = false) (h4 : findCategory reg arg = none) :
    mangleStep reg s arg
      = { s with skip_all := true, pending_args := s.pending_args ++ [arg] } := by
  unfold mangleStep
  rw [if_neg (by simp [not_remove_of_no_dash arg h2]), if_pos ⟨h2, h3⟩, if_pos h1, h4]

theorem mangleStep_fc_known (reg : Registry) (s : MangleState) (arg : String) (cat : Category)
    (h0 : s.category = some cat) (h1 : category_truthy s.category = true)
    (h2 : starts_with_dash arg = false) (h3 : s.skip_all = false)
    (h4 : s.framework_completed = false) (h5 : arg ∈ cat.frameworks) :
    mangleStep reg s arg
      = { s with framework_completed := true, result_args := s.result_args ++ [arg] } := by
  unfold mangleStep
  rw [if_neg (by simp [not_remove_of_no_dash arg h2]), if_pos ⟨h2, h3⟩,
    if_neg (by simp [h1]), if_pos h4, h0]
  dsimp only
  rw [if_pos h5]

theorem mangleStep_fc_default_sep (reg : Registry) (s : MangleState) (arg : String)
    (cat : Category) (d : String)
    (h0 : s.category = some cat) (h1 : category_truthy s.category = true)
    (h2 : starts_with_dash arg = false) (h3 : s.skip_all = false)
    (h4 : s.framework_completed = false) (h5 : arg ∉ cat.frameworks)
    (h6 : cat.default_framework = some d) (h7 : contains_path_sep arg = true) :
    mangleStep reg s arg
      = { s with framework_completed := true,
                 result_args := s.result_args ++ [d],
                 pending_args := s.pending_args ++ [arg] } := by
  unfold mangleStep
  rw [if_neg (by simp [not_remove_of_no_dash arg h2]), if_pos ⟨h2, h3⟩,
    if_neg (by simp [h1]), if_pos h4, h0]
  dsimp only
  rw [if_neg h5, h6]
  dsimp only
  rw [if_pos h7]

theorem mangleStep_fc_default_nosep (reg : Registry) (s : MangleState) (arg : String)
    (cat : Category) (d : String)
    (h0 : s.category = some cat) (h1 : category_truthy s.category = true)
    (h2 : starts_with_dash arg = false) (h3 : s.skip_all = false)
    (h4 : s.framework_completed = false) (h5 : arg ∉ cat.frameworks)
    (h6 : cat.default_framework = some d) (h7 : contains_path_sep arg = false) :
    mangleStep reg s arg
      = { s with framework_completed := true,
                 pending_args := s.pending_args ++ [arg] } := by
  unfold mangleStep
  rw [if_neg (by simp [not_remove_of_no_dash arg h2]), if_pos ⟨h2, h3⟩,
    if_neg (by simp [h1]), if_pos h4, h0]
  dsimp only
  rw [if_neg h5, h6]
  dsimp only
  rw [if_neg (by simp [h7])]

theorem mangleStep_fc_nodefault (reg : Registry) (s : MangleState) (arg : String)
    (cat : Category)
    (h0 : s.category = some cat) (h1 : category_truthy s.category = true)
    (h2 : starts_with_dash arg = false) (h3 : s.skip_all = false)
    (h4 : s.framework_completed = false) (h5 : arg ∉ cat.frameworks)
    (h6 : cat.default_framework = none) :
    mangleStep reg s arg
      = { s with framework_completed := true, skip_all := true,
                 pending_args := s.pending_args ++ [arg] } := by
  unfold mangleStep
  rw [if_neg (by simp [not_remove_of_no_dash arg h2]), if_pos ⟨h2, h3⟩,
    if_neg (by simp [h1]), if_pos h4, h0]
  dsimp only
  rw [if_neg h5, h6]

theorem mangleStep_fc_done (reg : Registry) (s : MangleState) (arg : String)
    (h1 : category_truthy s.category = true) (h2 : starts_with_dash arg = false)
    (h3 : s.skip_all = false) (h4 : s.framework_completed = true) :
    mangleStep reg s arg = { s with pending_args := s.pending_args ++ [arg] } := by
  unfold mangleStep
  rw [if_neg (by simp [not_remove_of_no_dash arg h2]), if_pos ⟨h2, h3⟩,
    if_neg (by simp [h1]), if_neg (by simp [h4])]

/-! ## Structural lemmas about the scan -/

theorem mangleStep_fc_mono (reg : Registry) (s : MangleState) (arg : String)
    (h : s.framework_completed = true) :
    (mangleStep reg s arg).framework_completed = true := by
  unfold mangleStep
  repeat' split
  all_goals first | rfl | simp_all

theorem mangleStep_category_keep (reg : Registry) (s : MangleState) (arg : String)
    (h : category_truthy s.category = true) :
    (mangleStep reg s arg).category = s.category := by
  unfold mangleStep
  repeat' split
  all_goals first | rfl | simp_all

theorem mangleStep_append_keep (reg : Registry) (s : MangleState) (arg : String)
    (h : category_truthy s.category = true) :
    (mangleStep reg s arg).args_to_append = s.args_to_append := by
  unfold mangleStep
  repeat' split
  all_goals first | rfl | simp_all

theorem mangleStep_truthy_parallel (reg : Registry) (s : MangleState) (arg : String)
    (A : List String) (h : category_truthy s.category = true) :
    mangleStep reg { s with args_to_append := A } arg
      = { mangleStep reg s arg with args_to_append := A } := by
  unfold mangleStep
  dsimp only
  repeat' split
  all_goals first | rfl | simp_all

theorem mangleFold_fc_mono (reg : Registry) (args : List String) :
    ∀ s : MangleState, s.framework_completed = true →
      (args.foldl (mangleStep reg) s).framework_completed = true := by
  induction args with
  | nil => exact fun s h => h
  | cons a as ih =>
    intro s h
    rw [List.foldl_cons]
    exact ih _ (mangleStep_fc_mono reg s a h)

theorem mangleFold_keep (reg : Registry) (args : List String) :
    ∀ s : MangleState, category_truthy s.category = true →
      (args.foldl (mangleStep reg) s).args_to_append = s.args_to_append
        ∧ (args.foldl (mangleStep reg) s).category = s.category := by
  induction args with
  | nil => exact fun s _ => ⟨rfl, rfl⟩
  | cons a as ih =>
    intro s h
    have hcat := mangleStep_category_keep reg s a h
    have happ := mangleStep_append_keep reg s a h
    obtain ⟨h1, h2⟩ := ih (mangleStep reg s a) (by rw [hcat]; exact h)
    exact ⟨by rw [List.foldl_cons, h1, happ], by rw [List.foldl_cons, h2, hcat]⟩

theorem mangleFold_truthy_parallel (reg : Registry) (args : List String) :
    ∀ (s : MangleState) (A : List String), category_truthy s.category = true →
      args.foldl (mangleStep reg) { s with args_to_append := A }
        = { args.foldl (mangleStep reg) s with args_to_append := A } := by
  induction args with
  | nil => intro s A _; rfl
  | cons a as ih =>
    intro s A h
    rw [List.foldl_cons, List.foldl_cons, mangleStep_truthy_parallel reg s a A h]
    exact ih (mangleStep reg s a) A (by rw [mangleStep_category_keep reg s a h]; exact h)

theorem mangleFold_options_post (reg : Registry) (opts : List String) :
    ∀ s : MangleState,
      (∀ t ∈ opts, starts_with_dash t = true) → category_truthy s.category = true →
      opts.foldl (mangleStep reg) s = { s with pending_args := s.pending_args ++ opts } := by
  induction opts with
  | nil => intro s _ _; cases s; simp
  | cons a as ih =>
    intro s hall h
    rw [List.foldl_cons, mangleStep_pending_truthy_option reg s a h (hall a (by simp))]
    rw [ih { s with pending_args := s.pending_args ++ [a] }
      (fun t ht => hall t (by simp [ht])) h]
    cases s
    simp

theorem mangleFold_options_pre (reg : Registry) (opts : List String) :
    ∀ s : MangleState,
      (∀ t ∈ opts, starts_with_dash t = true) → s.category = none →
      opts.foldl (mangleStep reg) s
        = { s with
              pending_args := s.pending_args ++ opts.filter (fun t => !(is_remove_flag t)),
              args_to_append := s.args_to_append ++ opts.filter (fun t => is_remove_flag t) } := by
  induction opts with
  | nil => intro s _ _; cases s; simp
  | cons a as ih =>
    intro s hall hcat
    have hdash := hall a (by simp)
    have hfalsy : category_truthy s.category = false := by rw [hcat]; rfl
    by_cases hr : is_remove_flag a = true
    . rw [List.foldl_cons, mangleStep_defer reg s a hfalsy hr]
      rw [ih { s with args_to_append := s.args_to_append ++ [a] }
        (fun t ht => hall t (by simp [ht])) hcat]
      cases s
      simp [List.filter_cons, hr]
    . have hr2 : is_remove_flag a = false := by simpa using hr
      rw [List.foldl_cons, mangleStep_pending_nonremove_option reg s a hdash hr2]
      rw [ih { s with pending_args := s.pending_args ++ [a] }
        (fun t ht => hall t (by simp [ht])) hcat]
      cases s
      simp [List.filter_cons, hr2]

/-! ## Token accounting (for claim C10) -/

theorem mangleStep_category_cases (reg : Registry) (s : MangleState) (arg : String) :
    (mangleStep reg s arg).category = s.category
      ∨ ∃ cat, findCategory reg arg = some cat ∧ (mangleStep reg s arg).category = some cat := by
  unfold mangleStep
  repeat' split
  all_goals first
    | (left; rfl)
    | (right; exact ⟨_, by assumption, rfl⟩)
    | simp_all

theorem mangleStep_parts (reg : Registry) (s : MangleState) (arg : String) :
    mangleParts (mangleStep reg s arg) = mangleParts s + {arg}
    ∨ (s.framework_completed = false
        ∧ (mangleStep reg s arg).framework_completed = true
        ∧ ∃ cat d, s.category = some cat ∧ category_truthy s.category = true
            ∧ cat.default_framework = some d
            ∧ mangleParts (mangleStep reg s arg) = mangleParts s + {arg} + {d}) := by
  by_cases hA : category_truthy s.category = false ∧ is_remove_flag arg = true
  . left
    rw [mangleStep_defer reg s arg hA.1 hA.2]
    simp only [mangleParts, ← Multiset.coe_add, Multiset.coe_singleton]
    abel
  . by_cases hB : starts_with_dash arg = false ∧ s.skip_all = false
    . by_cases hC : category_truthy s.category = false
      . cases hf : findCategory reg arg with
        | some cat =>
          left
          rw [mangleStep_commit reg s arg cat hC hB.1 hB.2 hf]
          simp only [mangleParts, ← Multiset.coe_add, Multiset.coe_singleton, Multiset.coe_nil]
          abel
        | none =>
          left
          rw [mangleStep_unknown reg s arg hC hB.1 hB.2 hf]
          simp only [mangleParts, ← Multiset.coe_add, Multiset.coe_singleton]
          abel
      . have hC2 : category_truthy s.category = true := by
          cases hcc : category_truthy s.category
          . exact absurd hcc hC
          . rfl
        obtain ⟨cat, hcat⟩ : ∃ cat, s.category = some cat := by
          cases hcc : s.category with
          | none => rw [hcc] at hC2; exact absurd hC2 (by simp [category_truthy])
          | some cat => exact ⟨cat, rfl⟩
        by_cases hfc : s.framework_completed = true
        . left
          rw [mangleStep_fc_done reg s arg hC2 hB.1 hB.2 hfc]
          simp only [mangleParts, ← Multiset.coe_add, Multiset.coe_singleton]
          abel
        . have hfc2 : s.framework_completed = false := by simpa using hfc
          by_cases hm : arg ∈ cat.frameworks
          . left
            rw [mangleStep_fc_known reg s arg cat hcat hC2 hB.1 hB.2 hfc2 hm]
            simp only [mangleParts, ← Multiset.coe_add, Multiset.coe_singleton]
            abel
          . cases hd : cat.default_framework with
            | some d =>
              by_cases hsep : contains_path_sep arg = true
              . right
                rw [mangleStep_fc_default_sep reg s arg cat d hcat hC2 hB.1 hB.2 hfc2 hm hd hsep]
                refine ⟨hfc2, rfl, cat, d, hcat, hC2, hd, ?_⟩
                simp only [mangleParts, ← Multiset.coe_add, Multiset.coe_singleton]
                abel
              . have hsep2 : contains_path_sep arg = false := by simpa using hsep
                left
                rw [mangleStep_fc_default_nosep reg s arg cat d hcat hC2 hB.1 hB.2 hfc2 hm hd hsep2]
                simp only [mangleParts, ← Multiset.coe_add, Multiset.coe_singleton]
                abel
            | none =>
              left
              rw [mangleStep_fc_nodefault reg s arg cat hcat hC2 hB.1 hB.2 hfc2 hm hd]
              simp only [mangleParts, ← Multiset.coe_add, Multiset.coe_singleton]
              abel
    . left
      rw [mangleStep_passthrough reg s arg hA hB]
      simp only [mangleParts, ← Multiset.coe_add, Multiset.coe_singleton]
      abel

theorem coe_cons_split (a : String) (as : List String) :
    ((a :: as : List String) : Multiset String) = {a} + (as : Multiset String) := by
  rw [← Multiset.cons_coe, ← Multiset.singleton_add]

theorem mangleFold_parts (reg : Registry) (args : List String) :
    ∀ s : MangleState,
      (∀ cat, s.category = some cat → cat ∈ reg) →
      (∀ cat, (args.foldl (mangleStep reg) s).category = some cat → cat ∈ reg)
      ∧ (mangleParts (args.foldl (mangleStep reg) s) = mangleParts s + ↑args
          ∨ (s.framework_completed = false
              ∧ (args.foldl (mangleStep reg) s).framework_completed = true
              ∧ ∃ cat d, (args.foldl (mangleStep reg) s).category = some cat ∧ cat ∈ reg
                  ∧ cat.default_framework = some d
                  ∧ mangleParts (args.foldl (mangleStep reg) s)
                      = mangleParts s + ↑args + {d})) := by
  induction args with
  | nil =>
    intro s hmem
    refine ⟨hmem, Or.inl ?_⟩
    simp [mangleParts]
  | cons a as ih =>
    intro s hmem
    have hmem2 : ∀ cat, (mangleStep reg s a).category = some cat → cat ∈ reg := by
      intro cat hc
      rcases mangleStep_category_cases reg s a with h | ⟨cat2, hf, hc2⟩
      . rw [h] at hc
        exact hmem cat hc
      . rw [hc2] at hc
        cases hc
        exact List.mem_of_find?_eq_some hf
    obtain ⟨ihmem, ihparts⟩ := ih (mangleStep reg s a) hmem2
    rw [List.foldl_cons]
    refine ⟨ihmem, ?_⟩
    rcases mangleStep_parts reg s a with hstep | ⟨hsfc, hsfc2, cat, d, hscat, hstruthy, hsd, hstep⟩
    . rcases ihparts with hp | ⟨hfc0, hfc1, cat, d, hcat, hcmem, hd, hp⟩
      . left
        rw [hp, hstep, coe_cons_split]
        abel
      . right
        have hsfc : s.framework_completed = false := by
          cases hsf : s.framework_completed
          . rfl
          . rw [mangleStep_fc_mono reg s a hsf] at hfc0
            exact absurd hfc0 (by simp)
        refine ⟨hsfc, hfc1, cat, d, hcat, hcmem, hd, ?_⟩
        rw [hp, hstep, coe_cons_split]
        abel
    . rcases ihparts with hp | ⟨hfc0, _, _⟩
      . right
        have hkeepcat : (mangleStep reg s a).category = s.category :=
          mangleStep_category_keep reg s a hstruthy
        have htr2 : category_truthy (mangleStep reg s a).category = true := by
          rw [hkeepcat]; exact hstruthy
        obtain ⟨_, hfoldcat⟩ := mangleFold_keep reg as (mangleStep reg s a) htr2
        refine ⟨hsfc, mangleFold_fc_mono reg as (mangleStep reg s a) hsfc2,
          cat, d, ?_, hmem cat hscat, hsd, ?_⟩
        . rw [hfoldcat, hkeepcat, hscat]
        . rw [hp, hstep, coe_cons_split]
          abel
      . rw [hsfc2] at hfc0
        exact absurd hfc0 (by simp)

theorem mangleFinish_parts (t : MangleState) :
    ((mangleFinish t : List String) : Multiset String) = mangleParts t
    ∨ (t.framework_completed = false
        ∧ ∃ cat d, t.category = some cat ∧ cat.default_framework = some d
            ∧ ((mangleFinish t : List String) : Multiset String) = mangleParts t + {d}) := by
  by_cases hc : category_truthy t.category = true ∧ t.framework_completed = false
  . obtain ⟨cat, hcat⟩ : ∃ cat, t.category = some cat := by
      cases hcc : t.category with
      | none => rw [hcc] at hc; exact absurd hc.1 (by simp [category_truthy])
      | some cat => exact ⟨cat, rfl⟩
    cases hd : cat.default_framework with
    | some d =>
      right
      refine ⟨hc.2, cat, d, hcat, hd, ?_⟩
      unfold mangleFinish
      rw [if_pos hc, hcat]
      dsimp only
      rw [hd]
      dsimp only
      simp only [mangleParts, ← Multiset.coe_add, Multiset.coe_singleton]
      abel
    | none =>
      left
      unfold mangleFinish
      rw [if_pos hc, hcat]
      dsimp only
      rw [hd]
      dsimp only
      simp only [mangleParts, ← Multiset.coe_add]
  . left
    unfold mangleFinish
    rw [if_neg hc]
    simp only [mangleParts, ← Multiset.coe_add]

/-- Claim C10: no input token is ever dropped by the resolver, and the only
token it may add is a single occurrence of the matched category default
framework name: the output is a permutation of the input, or of the input
plus that one default, so its length is the input length or one more. -/
theorem C10_no_token_dropped (reg : Registry) (args : List String) :
    (((mangle_args_for_default_framework reg args : List String) : Multiset String)
        = (args : Multiset String)
      ∨ ∃ cat d, (mangleScan reg args).category = some cat ∧ cat ∈ reg
          ∧ cat.default_framework = some d
          ∧ ((mangle_args_for_default_framework reg args : List String) : Multiset String)
              = (args : Multiset String) + {d})
    ∧ ((mangle_args_for_default_framework reg args).length = args.length
        ∨ (mangle_args_for_default_framework reg args).length = args.length + 1) := by
  have hmem0 : ∀ cat, initMangleState.category = some cat → cat ∈ reg := by
    intro cat h
    exact absurd h (by simp [initMangleState])
  obtain ⟨hmem, hparts⟩ := mangleFold_parts reg args initMangleState hmem0
  have hinit : mangleParts initMangleState = 0 := rfl
  have hdef : mangle_args_for_default_framework reg args
      = mangleFinish (args.foldl (mangleStep reg) initMangleState) := rfl
  have hscan : mangleScan reg args = args.foldl (mangleStep reg) initMangleState := rfl
  have hfin := mangleFinish_parts (args.foldl (mangleStep reg) initMangleState)
  have hmain : ((mangle_args_for_default_framework reg args : List String) : Multiset String)
        = (args : Multiset String)
      ∨ ∃ cat d, (mangleScan reg args).category = some cat ∧ cat ∈ reg
          ∧ cat.default_framework = some d
          ∧ ((mangle_args_for_default_framework reg args : List String) : Multiset String)
              = (args : Multiset String) + {d} := by
    rcases hparts with hp | ⟨hfc0, hfc1, cat, d, hcat, hcmem, hd, hp⟩
    . rcases hfin with hf | ⟨hffc, cat, d, hcat, hd, hf⟩
      . left
        rw [hdef, hf, hp, hinit, zero_add]
      . right
        refine ⟨cat, d, by rw [hscan]; exact hcat, hmem cat hcat, hd, ?_⟩
        rw [hdef, hf, hp, hinit, zero_add]
    . rcases hfin with hf | ⟨hffc, _⟩
      . right
        refine ⟨cat, d, by rw [hscan]; exact hcat, hcmem, hd, ?_⟩
        rw [hdef, hf, hp, hinit, zero_add]
      . rw [hfc1] at hffc
        exact absurd hffc (by simp)
  refine ⟨hmain, ?_⟩
  rcases hmain with h | ⟨cat, d, _, _, _, h⟩
  . left
    have hcard := congrArg Multiset.card h
    simpa using hcard
  . right
    have hcard := congrArg Multiset.card h
    simpa using hcard

theorem mangleFinish_append_factor (t : MangleState) (A : List String)
    (h : t.args_to_append = []) :
    mangleFinish { t with args_to_append := A } = mangleFinish t ++ A := by
  unfold mangleFinish
  dsimp only
  rw [h]
  by_cases hc : category_truthy t.category = true ∧ t.framework_completed = false
  . rw [if_pos hc]
    simp
  . rw [if_neg hc]
    simp

/-! ## Claims about the resolver and the help bypass -/

theorem findCategory_name (reg : Registry) (c : String) (cat : Category)
    (h : findCategory reg c = some cat) : cat.name = c := by
  have h2 := List.find?_some h
  simpa using h2

theorem category_truthy_of_ne (cat : Category) (h : cat.name ≠ "") :
    category_truthy (some cat) = true := by
  simp [category_truthy, h]

/-- Claim C2 (counterexample): the claim says `-h` also bypasses the argument
rewriting, but `main` only tests for the literal token `--help`; with
`["cat", "-h"]` the rewriting still runs and changes the vector. -/
theorem C2_counterexample :
    ("-h" ∈ (["cat", "-h"] : List String))
      ∧ ("--help" ∉ (["cat", "-h"] : List String))
      ∧ arg_to_parse reg0 ["cat", "-h"] = ["cat", "dflt", "-h"]
      ∧ arg_to_parse reg0 ["cat", "-h"] ≠ ["cat", "-h"] := by decide

/-- Claim C2 (amended): only the exact token `--help` bypasses the argument
rewriting; every argument vector containing `--help` is handed to the parser
unchanged (a vector containing only `-h` is still rewritten). -/
theorem C2_help_bypasses (reg : Registry) (argv : List String) (h : "--help" ∈ argv) :
    arg_to_parse reg argv = argv := by
  unfold arg_to_parse
  rw [if_pos h]

/-- Claim C2 witness: the amended theorem at `["--help", "cat"]`. -/
theorem C2_witness : arg_to_parse reg0 ["--help", "cat"] = ["--help", "cat"] :=
  C2_help_bypasses reg0 ["--help", "cat"] (by decide)

/-- Claim C3 (counterexample): a `-r` after the category token does not keep
its position relative to the surrounding tokens: in `["cat","-r","fw","x"]`
the recognized framework `fw` is emitted into `result_args` ahead of the
pending `-r`, so `-r` moves past `fw` (yet is not at the very end either). -/
theorem C3_counterexample :
    mangle_args_for_default_framework reg0 ["cat", "-r", "fw", "x"]
        = ["cat", "fw", "-r", "x"]
      ∧ ["cat", "fw", "-r", "x"] ≠ ["cat", "-r", "fw", "x"] := by decide

/-- Claim C3 (amended): in any vector in which a category is recognized --
necessarily of the form `opts1 ++ c :: rest` with every pre-category token an
option token -- every remove flag among the pre-category tokens is moved, in
order, to the very end of the output: the output is the output of the vector
with those flags removed, followed by those flags.  Moreover the deferred
`args_to_append` group of the scan is exactly those pre-category remove
flags, so no token after the category token (in particular no post-category
`-r`, for any tail `rest`) is ever deferred to it; a post-category `-r` may
still be reordered past a recognized framework token. -/
theorem C3_remove_deferred_only_before_category (reg : Registry) (opts1 : List String)
    (c : String) (rest : List String) (cat : Category)
    (h1 : ∀ t ∈ opts1, starts_with_dash t = true)
    (hc : findCategory reg c = some cat)
    (hdash : starts_with_dash c = false)
    (hne : c ≠ "") :
    mangle_args_for_default_framework reg (opts1 ++ c :: rest)
        = mangle_args_for_default_framework reg
            (opts1.filter (fun t => !(is_remove_flag t)) ++ c :: rest)
          ++ opts1.filter (fun t => is_remove_flag t)
      ∧ (mangleScan reg (opts1 ++ c :: rest)).args_to_append
          = opts1.filter (fun t => is_remove_flag t) := by
  have hname := findCategory_name reg c cat hc
  have htr : category_truthy (some cat) = true :=
    category_truthy_of_ne cat (by rw [hname]; exact hne)
  have h1nr : ∀ t ∈ opts1.filter (fun t => !(is_remove_flag t)), starts_with_dash t = true :=
    fun t ht => h1 t (List.mem_of_mem_filter ht)
  have hffb : (opts1.filter (fun t => !(is_remove_flag t))).filter (fun t => !(is_remove_flag t))
      = opts1.filter (fun t => !(is_remove_flag t)) := by
    apply List.filter_eq_self.mpr
    intro a ha
    have h3 := List.of_mem_filter ha
    exact h3
  have hffa : (opts1.filter (fun t => !(is_remove_flag t))).filter (fun t => is_remove_flag t)
      = [] := by
    apply List.filter_eq_nil_iff.mpr
    intro a ha
    have h2 := List.of_mem_filter ha
    simp at h2
    simp [h2]
  have hpreL : opts1.foldl (mangleStep reg) initMangleState
      = { initMangleState with
            pending_args := opts1.filter (fun t => !(is_remove_flag t)),
            args_to_append := opts1.filter (fun t => is_remove_flag t) } := by
    rw [mangleFold_options_pre reg opts1 initMangleState h1 rfl]
    rfl
  have hcommitL : mangleStep reg
      { initMangleState with
          pending_args := opts1.filter (fun t => !(is_remove_flag t)),
          args_to_append := opts1.filter (fun t => is_remove_flag t) } c
      = { initMangleState with
            result_args := opts1.filter (fun t => !(is_remove_flag t)) ++ [c],
            pending_args := [],
            category := some cat,
            args_to_append := opts1.filter (fun t => is_remove_flag t) } := by
    rw [mangleStep_commit reg
      { initMangleState with
          pending_args := opts1.filter (fun t => !(is_remove_flag t)),
          args_to_append := opts1.filter (fun t => is_remove_flag t) } c cat rfl hdash rfl hc]
    rfl
  have hpreR : (opts1.filter (fun t => !(is_remove_flag t))).foldl (mangleStep reg) initMangleState
      = { initMangleState with
            pending_args := opts1.filter (fun t => !(is_remove_flag t)),
            args_to_append := [] } := by
    rw [mangleFold_options_pre reg (opts1.filter (fun t => !(is_remove_flag t)))
      initMangleState h1nr rfl]
    rw [hffb, hffa]
    rfl
  have hcommitR : mangleStep reg
      { initMangleState with
          pending_args := opts1.filter (fun t => !(is_remove_flag t)),
          args_to_append := [] } c
      = { initMangleState with
            result_args := opts1.filter (fun t => !(is_remove_flag t)) ++ [c],
            pending_args := [],
            category := some cat,
            args_to_append := [] } := by
    rw [mangleStep_commit reg
      { initMangleState with
          pending_args := opts1.filter (fun t => !(is_remove_flag t)),
          args_to_append := [] } c cat rfl hdash rfl hc]
    rfl
  have htr2 : category_truthy ({ initMangleState with
        result_args := opts1.filter (fun t => !(is_remove_flag t)) ++ [c],
        pending_args := [],
        category := some cat,
        args_to_append := [] } : MangleState).category = true := by exact htr
  have hparallel : rest.foldl (mangleStep reg)
      { initMangleState with
          result_args := opts1.filter (fun t => !(is_remove_flag t)) ++ [c],
          pending_args := [],
          category := some cat,
          args_to_append := opts1.filter (fun t => is_remove_flag t) }
      = { rest.foldl (mangleStep reg)
            { initMangleState with
                result_args := opts1.filter (fun t => !(is_remove_flag t)) ++ [c],
                pending_args := [],
                category := some cat,
                args_to_append := [] }
          with args_to_append := opts1.filter (fun t => is_remove_flag t) } :=
    mangleFold_truthy_parallel reg rest
      { initMangleState with
          result_args := opts1.filter (fun t => !(is_remove_flag t)) ++ [c],
          pending_args := [],
          category := some cat,
          args_to_append := [] }
      (opts1.filter (fun t => is_remove_flag t)) htr2
  have hkeep : (rest.foldl (mangleStep reg)
      { initMangleState with
          result_args := opts1.filter (fun t => !(is_remove_flag t)) ++ [c],
          pending_args := [],
          category := some cat,
          args_to_append := [] }).args_to_append = [] := by
    rw [(mangleFold_keep reg rest
      { initMangleState with
          result_args := opts1.filter (fun t => !(is_remove_flag t)) ++ [c],
          pending_args := [],
          category := some cat,
          args_to_append := [] } htr2).1]
  have happ2 : (mangleScan reg (opts1 ++ c :: rest)).args_to_append
      = opts1.filter (fun t => is_remove_flag t) := by
    unfold mangleScan
    rw [List.foldl_append, hpreL, List.foldl_cons, hcommitL, hparallel]
  refine ⟨?_, happ2⟩
  unfold mangle_args_for_default_framework mangleScan
  rw [List.foldl_append, hpreL, List.foldl_cons, hcommitL, hparallel,
    List.foldl_append, hpreR, List.foldl_cons, hcommitR]
  exact mangleFinish_append_factor
    (rest.foldl (mangleStep reg)
      { initMangleState with
          result_args := opts1.filter (fun t => !(is_remove_flag t)) ++ [c],
          pending_args := [],
          category := some cat,
          args_to_append := [] })
    (opts1.filter (fun t => is_remove_flag t)) hkeep

/-- Claim C3 witness: the amended theorem at `["-v", "-r", "cat", "fw", "x"]`,
where the remove flag is neither leading nor adjacent to the category. -/
theorem C3_witness :
    mangle_args_for_default_framework reg0 (["-v", "-r"] ++ "cat" :: ["fw", "x"])
        = mangle_args_for_default_framework reg0
            ((["-v", "-r"] : List String).filter (fun t => !(is_remove_flag t))
              ++ "cat" :: ["fw", "x"])
          ++ (["-v", "-r"] : List String).filter (fun t => is_remove_flag t)
      ∧ (mangleScan reg0 (["-v", "-r"] ++ "cat" :: ["fw", "x"])).args_to_append
          = (["-v", "-r"] : List String).filter (fun t => is_remove_flag t) :=
  C3_remove_deferred_only_before_category reg0 ["-v", "-r"] "cat" ["fw", "x"] cat0
    (by decide) (by decide) (by decide) (by decide)

/-- Claim C6 (counterexample): the claim quantifies over every token that is
not a known sub-command; for the option token `-x` (no path separator) the
default is still inserted between the category and the token, through the
end-of-scan rule, so "inserted iff the token contains a path separator"
fails. -/
theorem C6_counterexample :
    mangle_args_for_default_framework reg0 ["cat", "-x"] = ["cat", "dflt", "-x"]
      ∧ contains_path_sep "-x" = false
      ∧ "-x" ∉ cat0.frameworks
      ∧ mangle_args_for_default_framework reg0 ["cat", "-x"] ≠ ["cat", "-x"] := by decide

/-- Claim C6 (amended): for `[category, token]` where the category is known
with a default and the token is a non-option token (does not begin with `-`)
that is not a known sub-command, the default is inserted between category and
token exactly when the token contains a path separator. -/
theorem C6_default_on_path_only (reg : Registry) (c t : String) (cat : Category) (d : String)
    (hc : findCategory reg c = some cat) (hdash : starts_with_dash c = false) (hne : c ≠ "")
    (ht : starts_with_dash t = false) (htf : t ∉ cat.frameworks)
    (hd : cat.default_framework = some d) :
    mangle_args_for_default_framework reg [c, t]
      = if contains_path_sep t = true then [c, d, t] else [c, t] := by
  have hname := findCategory_name reg c cat hc
  have htr : category_truthy (some cat) = true :=
    category_truthy_of_ne cat (by rw [hname]; exact hne)
  have hcommit : mangleStep reg initMangleState c
      = { initMangleState with category := some cat, result_args := [c] } := by
    rw [mangleStep_commit reg initMangleState c cat rfl hdash rfl hc]
    rfl
  unfold mangle_args_for_default_framework mangleScan
  rw [show List.foldl (mangleStep reg) initMangleState [c, t]
      = mangleStep reg (mangleStep reg initMangleState c) t from rfl]
  rw [hcommit]
  by_cases hsep : contains_path_sep t = true
  . rw [mangleStep_fc_default_sep reg _ t cat d rfl (by exact htr) ht rfl rfl htf hd hsep]
    rw [if_pos hsep]
    unfold mangleFinish
    rw [if_neg (by simp)]
    simp [initMangleState]
  . have hsep2 : contains_path_sep t = false := by simpa using hsep
    rw [mangleStep_fc_default_nosep reg _ t cat d rfl (by exact htr) ht rfl rfl htf hd hsep2]
    rw [if_neg (by simp [hsep2])]
    unfold mangleFinish
    rw [if_neg (by simp)]
    simp [initMangleState]

/-- Claim C6 witness: the amended theorem at `["cat", "/some/path"]`. -/
theorem C6_witness :
    mangle_args_for_default_framework reg0 ["cat", "/some/path"]
      = if contains_path_sep "/some/path" = true
          then ["cat", "dflt", "/some/path"] else ["cat", "/some/path"] :=
  C6_default_on_path_only reg0 "cat" "/some/path" cat0 "dflt"
    (by decide) (by decide) (by decide) (by decide) (by decide) (by decide)

/-- Claim C8: when the argument vector ends right after a recognized category
token (only option tokens surround it, so no non-option token follows the
category) and the category has a default, the default identifier is appended
immediately after the category token. -/
theorem C8_default_appended (reg : Registry) (opts1 opts2 : List String)
    (c : String) (cat : Category) (d : String)
    (h1 : ∀ t ∈ opts1, starts_with_dash t = true)
    (h2 : ∀ t ∈ opts2, starts_with_dash t = true)
    (hc : findCategory reg c = some cat)
    (hdash : starts_with_dash c = false)
    (hne : c ≠ "")
    (hd : cat.default_framework = some d) :
    mangle_args_for_default_framework reg (opts1 ++ c :: opts2)
      = opts1.filter (fun t => !(is_remove_flag t))
          ++ c :: d :: (opts2 ++ opts1.filter (fun t => is_remove_flag t)) := by
  have hname := findCategory_name reg c cat hc
  have htr : category_truthy (some cat) = true :=
    category_truthy_of_ne cat (by rw [hname]; exact hne)
  have hpre : opts1.foldl (mangleStep reg) initMangleState
      = { initMangleState with
            pending_args := opts1.filter (fun t => !(is_remove_flag t)),
            args_to_append := opts1.filter (fun t => is_remove_flag t) } := by
    rw [mangleFold_options_pre reg opts1 initMangleState h1 rfl]
    rfl
  have hcommit : mangleStep reg
      { initMangleState with
          pending_args := opts1.filter (fun t => !(is_remove_flag t)),
          args_to_append := opts1.filter (fun t => is_remove_flag t) } c
      = { initMangleState with
            result_args := opts1.filter (fun t => !(is_remove_flag t)) ++ [c],
            pending_args := [],
            category := some cat,
            args_to_append := opts1.filter (fun t => is_remove_flag t) } := by
    rw [mangleStep_commit reg
      { initMangleState with
          pending_args := opts1.filter (fun t => !(is_remove_flag t)),
          args_to_append := opts1.filter (fun t => is_remove_flag t) } c cat rfl hdash rfl hc]
    rfl
  have hpost : opts2.foldl (mangleStep reg)
      { initMangleState with
          result_args := opts1.filter (fun t => !(is_remove_flag t)) ++ [c],
          pending_args := [],
          category := some cat,
          args_to_append := opts1.filter (fun t => is_remove_flag t) }
      = { initMangleState with
            result_args := opts1.filter (fun t => !(is_remove_flag t)) ++ [c],
            pending_args := opts2,
            category := some cat,
            args_to_append := opts1.filter (fun t => is_remove_flag t) } := by
    rw [mangleFold_options_post reg opts2
      { initMangleState with
          result_args := opts1.filter (fun t => !(is_remove_flag t)) ++ [c],
          pending_args := [],
          category := some cat,
          args_to_append := opts1.filter (fun t => is_remove_flag t) } h2 (by exact htr)]
    rfl
  unfold mangle_args_for_default_framework mangleScan
  rw [List.foldl_append, hpre, List.foldl_cons, hcommit, hpost]
  unfold mangleFinish
  rw [if_pos ⟨(by exact htr), rfl⟩]
  dsimp only
  rw [hd]
  dsimp only
  simp [initMangleState]

/-- Claim C8 witness: the theorem at `["-v", "--remove", "cat", "-r"]`. -/
theorem C8_witness :
    mangle_args_for_default_framework reg0 (["-v", "--remove"] ++ "cat" :: ["-r"])
      = (["-v", "--remove"] : List String).filter (fun t => !(is_remove_flag t))
          ++ "cat" :: "dflt"
            :: (["-r"] ++ (["-v", "--remove"] : List String).filter (fun t => is_remove_flag t)) :=
  C8_default_appended reg0 ["-v", "--remove"] ["-r"] "cat" cat0 "dflt"
    (by decide) (by decide) (by decide) (by decide) (by decide) (by decide)

/-! ## Claims about the update pipeline and the UI dispatch -/

theorem classify_outdated_true (latest_version user_version : Option String)
    (h : classify_outdated latest_version user_version = some true) :
    latest_version.isSome = true ∧ user_version.isSome = true
      ∧ is_first_version_higher latest_version user_version = some true := by
  unfold classify_outdated at h
  by_cases hc : latest_version.isSome = true ∧ user_version.isSome = true
  . rw [if_pos hc] at h
    exact ⟨hc.1, hc.2, h⟩
  . rw [if_neg hc] at h
    exact absurd h (by simp)

theorem classify_outdated_none (latest_version user_version : Option String)
    (h : latest_version = none ∨ user_version = none) :
    classify_outdated latest_version user_version = some false := by
  rcases h with h | h <;> subst h <;> simp [classify_outdated]

theorem scan_outdated_mem : ∀ (l : List InstalledFramework) (out : List OutdatedEntry),
    scan_outdated l = some out →
    ∀ e ∈ out, ∃ f, f ∈ l
      ∧ e = ⟨f.framework_name, f.category_name, f.user_version, f.latest_version, true⟩
      ∧ classify_outdated f.latest_version f.user_version = some true := by
  intro l
  induction l with
  | nil =>
    intro out h e he
    unfold scan_outdated at h
    cases h
    exact absurd he (by simp)
  | cons f rest ih =>
    intro out h e he
    unfold scan_outdated at h
    by_cases hskip : f.category_name = "java" ∨ f.framework_name = "firefox-dev"
    . rw [if_pos hskip] at h
      obtain ⟨g, hg, hge, hgc⟩ := ih out h e he
      exact ⟨g, List.mem_cons_of_mem f hg, hge, hgc⟩
    . rw [if_neg hskip] at h
      by_cases hsup : f.supports_update = true
      . rw [if_pos hsup] at h
        cases hcl : classify_outdated f.latest_version f.user_version with
        | none =>
          rw [hcl] at h
          cases h
        | some b =>
          rw [hcl] at h
          dsimp only at h
          by_cases hb : b = true
          . subst hb
            rw [if_pos rfl] at h
            cases hrest : scan_outdated rest with
            | none =>
              rw [hrest] at h
              cases h
            | some outr =>
              rw [hrest] at h
              dsimp only [Option.map] at h
              cases h
              rcases List.mem_cons.mp he with rfl | hmem
              . exact ⟨f, List.mem_cons_self f rest, rfl, by rw [hcl]⟩
              . obtain ⟨g, hg, hge, hgc⟩ := ih outr hrest e hmem
                exact ⟨g, List.mem_cons_of_mem f hg, hge, hgc⟩
          . have hb2 : b = false := by simpa using hb
            subst hb2
            rw [if_neg (by simp)] at h
            obtain ⟨g, hg, hge, hgc⟩ := ih out h e he
            exact ⟨g, List.mem_cons_of_mem f hg, hge, hgc⟩
      . rw [if_neg hsup] at h
        obtain ⟨g, hg, hge, hgc⟩ := ih out h e he
        exact ⟨g, List.mem_cons_of_mem f hg, hge, hgc⟩

/-- Claim C4: whenever the set of outdated components is non-empty, the
install/update command is re-invoked exactly once, for the first outdated
component of the (sorted) report, and for no further component: the loop
body ends in `return`. -/
theorem C4_first_outdated_only (installed : List InstalledFramework) (r : UpdateResult)
    (h : update_pipeline installed = some r) (hne : r.report ≠ []) :
    ∃ e rest, r.report = e :: rest
      ∧ r.invocations = [(e.category_name, e.framework_name)]
      ∧ r.invocations.length = 1 := by
  unfold update_pipeline at h
  cases hscan : scan_outdated (sort_by_name installed) with
  | none =>
    rw [hscan] at h
    cases h
  | some outdated =>
    rw [hscan] at h
    dsimp only at h
    by_cases hlen : outdated.length = 0
    . rw [if_pos hlen] at h
      cases h
      exact absurd rfl hne
    . rw [if_neg hlen] at h
      cases h
      cases outdated with
      | nil => exact absurd rfl hlen
      | cons e restl => exact ⟨e, restl, rfl, rfl, rfl⟩

/-- Claim C4 witness: one installed `idea` 1.0 with latest 2.0 yields report
`[idea]` and exactly the single re-invocation `("ide", "idea")`. -/
theorem C4_witness :
    ∃ e rest, result1.report = e :: rest
      ∧ result1.invocations = [(e.category_name, e.framework_name)]
      ∧ result1.invocations.length = 1 :=
  C4_first_outdated_only installed1 result1 (by decide) (by decide)

/-- Claim C7: a component is reported outdated only when both its installed
and latest versions are present (non-`None`) and the latest is strictly
higher per the comparator; when either version is `None` the classification
is `False`. -/
theorem C7_outdated_requires_both_versions (installed : List InstalledFramework)
    (r : UpdateResult) (h : update_pipeline installed = some r) :
    (∀ e ∈ r.report, e.latest_version.isSome = true ∧ e.user_version.isSome = true
        ∧ is_first_version_higher e.latest_version e.user_version = some true
        ∧ e.is_outdated = true)
      ∧ ∀ latest_version user_version : Option String,
          latest_version = none ∨ user_version = none →
          classify_outdated latest_version user_version = some false := by
  constructor
  . intro e he
    unfold update_pipeline at h
    cases hscan : scan_outdated (sort_by_name installed) with
    | none =>
      rw [hscan] at h
      cases h
    | some outdated =>
      rw [hscan] at h
      dsimp only at h
      by_cases hlen : outdated.length = 0
      . rw [if_pos hlen] at h
        cases h
        exact absurd he (by simp)
      . rw [if_neg hlen] at h
        cases h
        obtain ⟨g, hg, hge, hgc⟩ := scan_outdated_mem (sort_by_name installed) outdated hscan e he
        obtain ⟨h1, h2, h3⟩ := classify_outdated_true g.latest_version g.user_version hgc
        subst hge
        exact ⟨h1, h2, h3, rfl⟩
  . intro latest_version user_version hnone
    exact classify_outdated_none latest_version user_version hnone

/-- Claim C7 witness: the theorem applied to the concrete pipeline run and to
an absent latest version. -/
theorem C7_witness :
    (entry1.latest_version.isSome = true ∧ entry1.user_version.isSome = true
        ∧ is_first_version_higher entry1.latest_version entry1.user_version = some true
        ∧ entry1.is_outdated = true)
      ∧ classify_outdated none (some "1.0") = some false :=
  ⟨(C7_outdated_requires_both_versions installed1 result1 (by decide)).1 entry1 (by decide),
    (C7_outdated_requires_both_versions installed1 result1 (by decide)).2
      none (some "1.0") (Or.inl rfl)⟩

/-- Claim C9: an interaction request of any kind outside the closed
recognized set makes `_display` log the error message and quit the main loop
with status 1 (a non-zero exit status), regardless of the input stream; it is
never silently ignored. -/
theorem C9_unknown_kind_quits (descr : String) (stdin : List String) (fuel : Nat)
    (h : 0 < fuel) :
    display_loop fuel stdin (.other descr)
        = ([unknown_content_error descr], some (.quit 1))
      ∧ (1 : Nat) ≠ 0 := by
  cases fuel with
  | zero => exact absurd h (by simp)
  | succ n => exact ⟨rfl, by simp⟩

/-- Claim C9 witness: the theorem at a concrete unknown request. -/
theorem C9_witness :
    display_loop 1 [] (.other "DownloadItem")
        = ([unknown_content_error "DownloadItem"], some (.quit 1))
      ∧ (1 : Nat) ≠ 0 :=
  C9_unknown_kind_quits "DownloadItem" [] 1 (by decide)

end UmakeCli

